import Mathlib

/-!
Verification of the lstasko repo-sync payload decoder.

The development shallowly embeds `src/lstasko/lstasko.py`:
`get_reposync_details` (the decode pipeline with its catch-all handler)
and `get_channel_details` (the channel resolver), together with the
exception type of `src/lstasko/exceptions.py`.

The wire decoder `javaobj.v2.loads` is an external library that is not
part of the repository sources; it is modelled from the specification
(§4.3 Graph Decoder, §6 byte layout contract): stream magic
`AC ED 00 05`, scalar-string tag `0x74` with 2-byte big-endian length,
end-of-block sentinel `0x78`, class descriptors, block data, and a
handle table for back-references, with all reads bounds-checked and
every failure surfaced as an error value.
-/

namespace LSTasko

/-- A raw payload is a byte sequence; bytes are naturals < 256. -/
abbrev Bytes := List Nat

/-- Row of the `rhnChannel` catalog consumed by `get_channel_details`. -/
structure Channel where
  id : Int
  label : String
  name : String
deriving DecidableEq, Repr

/-- The channel catalog (the external database table). -/
abbrev Catalog := List Channel

/-- A channel identifier as accepted by `get_channel_details`:
a Python `int` id or a `str` label. -/
inductive Ident where
  | int : Int → Ident
  | str : String → Ident
deriving DecidableEq, Repr

/-- The argument shapes of `get_channel_details`: a single identifier
(returning a dict) or a list of identifiers (returning a list). -/
inductive IdentArg where
  | single : Ident → IdentArg
  | list : List Ident → IdentArg
deriving DecidableEq, Repr

/-- Wire-level decode failures of the modelled `javaobj` decoder. -/
inductive PErr where
  | eof | badMagic | badTag | badHandle | unsupported
deriving DecidableEq, Repr

/-- Python exceptions that can arise inside the decode pipeline;
`channelNotFound` embeds `LSTaskoChannelNotFoundException` with its
`missing` identifier list (exceptions.py lines 32-39). -/
inductive PyExc where
  | parse : PErr → PyExc
  | attributeError : PyExc
  | indexError : PyExc
  | valueError : PyExc
  | channelNotFound : List Ident → PyExc
deriving DecidableEq, Repr

/-! ### Byte cursor primitives (modelled from the spec, §4.1) -/

/-- Modelled from the spec: read one byte, `UnexpectedEndOfStream` on
an empty remainder. -/
def readByte : Bytes → Except PErr (Nat × Bytes)
  | [] => .error .eof
  | b :: rest => .ok (b, rest)

/-- Modelled from the spec: read `n` raw bytes, bounds-checked. -/
def readN (n : Nat) (input : Bytes) : Except PErr (Bytes × Bytes) :=
  if n ≤ input.length then .ok (input.take n, input.drop n) else .error .eof

/-- Modelled from the spec: read a big-endian 2-byte value. -/
def readShort : Bytes → Except PErr (Nat × Bytes)
  | b0 :: b1 :: rest => .ok (b0 * 256 + b1, rest)
  | _ => .error .eof

/-- Modelled from the spec: read a big-endian 4-byte value (handle
numbers of back-references). -/
def readInt4 : Bytes → Except PErr (Nat × Bytes)
  | b0 :: b1 :: b2 :: b3 :: rest =>
      .ok (((b0 * 256 + b1) * 256 + b2) * 256 + b3, rest)
  | _ => .error .eof

/-- Decode raw bytes as text (payload text is ASCII; each byte becomes
one character). -/
def bytesToStr (bs : Bytes) : String := String.mk (bs.map Char.ofNat)

/-- Error-propagating sequencing of parser steps (Python exception
propagation inside `javaobj`). -/
def pbind {A B : Type} : Except PErr A → (A → Except PErr B) → Except PErr B
  | .error e, _ => .error e
  | .ok a, f => f a

/-- Modelled from the spec: scalar string layout after its tag =
2-byte big-endian length followed by that many bytes of text. -/
def readLenStr (input : Bytes) : Except PErr (String × Bytes) :=
  pbind (readShort input) fun nr =>
  pbind (readN nr.1 nr.2) fun br => .ok (bytesToStr br.1, br.2)

/-! ### Decoded object model (the shapes `javaobj` hands back) -/

/-- A decoded class descriptor: name plus declared field names. -/
structure JClass where
  name : String
  fieldNames : List String
deriving DecidableEq, Repr

mutual
/-- A decoded object instance: class descriptor, ordered field
values, and the trailing annotation block contents. -/
inductive JObject where
  | mk : JClass → List JValue → List JValue → JObject

/-- A decoded value appearing in an annotation block: a string, a raw
block-data segment, or a nested object. -/
inductive JValue where
  | jstr : String → JValue
  | block : Bytes → JValue
  | jobj : JObject → JValue
end

/-- Class descriptor of an object. -/
def JObject.cls : JObject → JClass
  | .mk c _ _ => c

/-- Annotation block contents of an object. -/
def JObject.annList : JObject → List JValue
  | .mk _ _ a => a

/-- `obj.annotations.items()`: the map from class descriptor to
annotation contents, exposed as a list of pairs. -/
def annItemsOf (o : JObject) : List (JClass × List JValue) :=
  [(o.cls, o.annList)]

/-- Handle-table entries: previously decoded class descriptors,
strings and object instances (spec §3). -/
inductive HEntry where
  | cls : JClass → HEntry
  | hstr : String → HEntry
  | hobj : JObject → HEntry

/-- The per-call handle table, an arena indexed by handle number. -/
abbrev Arena := List HEntry

/-- Fixed base offset of handle numbers defined by the wire format. -/
def handleBase : Nat := 0x7E0000

/-- Resolve a back-reference; `none` is an unresolvable handle. -/
def resolveHandle (a : Arena) (h : Nat) : Option HEntry :=
  if h < handleBase then none else a.get? (h - handleBase)

/-- Wire tag bytes (spec §6 fixes `0x74` and `0x78`; the remaining
record tags follow the serialization format the spec describes). -/
def tagNull : Nat := 0x70
def tagReference : Nat := 0x71
def tagClassDesc : Nat := 0x72
def tagObject : Nat := 0x73
def tagString : Nat := 0x74
def tagBlockData : Nat := 0x77
def tagEndBlock : Nat := 0x78

/-- Read `n` length-prefixed field names of a class descriptor. -/
def readFieldNames : Nat → Bytes → Except PErr (List String × Bytes)
  | 0, input => .ok ([], input)
  | n + 1, input =>
    pbind (readLenStr input) fun sr =>
    pbind (readFieldNames n sr.2) fun ssr => .ok (sr.1 :: ssr.1, ssr.2)

/-- Modelled from the spec: a class-descriptor record (name + field
specs, registered in the handle table) or a back-reference to one. -/
def parseClassDesc (arena : Arena) (input : Bytes) :
    Except PErr (JClass × Arena × Bytes) :=
  pbind (readByte input) fun tr =>
    if tr.1 = tagClassDesc then
      pbind (readLenStr tr.2) fun nr =>
      pbind (readShort nr.2) fun fcr =>
      pbind (readFieldNames fcr.1 fcr.2) fun fsr =>
      pbind (readByte fsr.2) fun er =>
        if er.1 = tagNull then
          .ok (⟨nr.1, fsr.1⟩, arena ++ [.cls ⟨nr.1, fsr.1⟩], er.2)
        else .error .badTag
    else if tr.1 = tagReference then
      pbind (readInt4 tr.2) fun hr =>
        match resolveHandle arena hr.1 with
        | some (.cls cd) => .ok (cd, arena, hr.2)
        | _ => .error .badHandle
    else .error .badTag

mutual
/-- Modelled from the spec: one record of the stream — a scalar
string, block data, a new-object record (class descriptor + field
values + annotation block), or a back-reference by handle. The fuel
argument bounds recursion depth; callers pass `input.length + 1`,
which the encoder lemmas show is always sufficient. -/
def parseItem : Nat → Arena → Bytes → Except PErr (JValue × Arena × Bytes)
  | 0, _, _ => .error .eof
  | fuel + 1, arena, input =>
    pbind (readByte input) fun tr =>
      if tr.1 = tagString then
        pbind (readLenStr tr.2) fun sr => .ok (.jstr sr.1, arena ++ [.hstr sr.1], sr.2)
      else if tr.1 = tagBlockData then
        pbind (readByte tr.2) fun nr =>
        pbind (readN nr.1 nr.2) fun br => .ok (.block br.1, arena, br.2)
      else if tr.1 = tagObject then
        pbind (parseClassDesc arena tr.2) fun cdr =>
        pbind (parseNItems fuel cdr.1.fieldNames.length cdr.2.1 cdr.2.2) fun fvr =>
        pbind (parseItems fuel fvr.2.1 fvr.2.2) fun anr =>
          .ok (.jobj (.mk cdr.1 fvr.1 anr.1),
            anr.2.1 ++ [.hobj (.mk cdr.1 fvr.1 anr.1)], anr.2.2)
      else if tr.1 = tagReference then
        pbind (readInt4 tr.2) fun hr =>
          match resolveHandle arena hr.1 with
          | some (.hstr s) => .ok (.jstr s, arena, hr.2)
          | some (.hobj o) => .ok (.jobj o, arena, hr.2)
          | _ => .error .badHandle
      else .error .badTag

/-- Modelled from the spec: the `n` ordered field values of a
new-object record. -/
def parseNItems : Nat → Nat → Arena → Bytes → Except PErr (List JValue × Arena × Bytes)
  | _, 0, arena, input => .ok ([], arena, input)
  | 0, _ + 1, _, _ => .error .eof
  | fuel + 1, n + 1, arena, input =>
    pbind (parseItem fuel arena input) fun vr =>
    pbind (parseNItems fuel n vr.2.1 vr.2.2) fun vsr =>
      .ok (vr.1 :: vsr.1, vsr.2.1, vsr.2.2)

/-- Modelled from the spec: an annotation block — records up to the
end-of-block sentinel `0x78`. -/
def parseItems : Nat → Arena → Bytes → Except PErr (List JValue × Arena × Bytes)
  | 0, _, _ => .error .eof
  | fuel + 1, arena, input =>
    pbind (readByte input) fun tr =>
      if tr.1 = tagEndBlock then .ok ([], arena, tr.2)
      else
        pbind (parseItem fuel arena input) fun vr =>
        pbind (parseItems fuel vr.2.1 vr.2.2) fun vsr =>
          .ok (vr.1 :: vsr.1, vsr.2.1, vsr.2.2)
end

/-- The fixed 4-byte stream magic `AC ED 00 05`. -/
def streamMagic : Bytes := [0xAC, 0xED, 0x00, 0x05]

/-- Modelled from the spec: `javaobj.v2.loads` — validate the 4-byte
magic, then decode the first top-level record; a non-object top-level
value makes the subsequent `obj.annotations` attribute access fail,
which is folded into the error outcome here. -/
def javaobj_loads (data : Bytes) : Except PErr JObject :=
  if data.take 4 = streamMagic then
    match parseItem (data.length + 1) [] (data.drop 4) with
    | .ok (.jobj o, _, _) => .ok o
    | .ok _ => .error .unsupported
    | .error e => .error e
  else .error .badMagic

/-! ### Python string semantics used by the extractor (lstasko.py) -/

/-- `str.lower()` restricted to ASCII letters (annotation payload text
is ASCII). -/
def asciiLowerChar (c : Char) : Char :=
  if 'A' ≤ c && c ≤ 'Z' then Char.ofNat (c.toNat + 32) else c

/-- `str.lower()` on a whole string. -/
def pyLower (s : String) : String := String.mk (s.toList.map asciiLowerChar)

/-- Value of an ASCII digit, if any. -/
def digitVal (c : Char) : Option Nat :=
  if '0' ≤ c && c ≤ '9' then some (c.toNat - '0'.toNat) else none

/-- Accumulate a nonempty digit run; `none` on any non-digit. -/
def digitsToNat : List Char → Nat → Option Nat
  | [], acc => some acc
  | c :: cs, acc =>
    match digitVal c with
    | some d => digitsToNat cs (acc * 10 + d)
    | none => none

/-- Python `int(s)`: surrounding spaces stripped, optional sign, then
a nonempty run of decimal digits; anything else raises `ValueError`
(returned as `none`). -/
def pyInt (s : String) : Option Int :=
  let cs := (s.toList.dropWhile (· = ' ')).reverse.dropWhile (· = ' ') |>.reverse
  match cs with
  | [] => none
  | '-' :: rest =>
    if rest.isEmpty then none else (digitsToNat rest 0).map (fun n => -(n : Int))
  | '+' :: rest =>
    if rest.isEmpty then none else (digitsToNat rest 0).map (fun n => (n : Int))
  | rest => (digitsToNat rest 0).map (fun n => (n : Int))

/-- Python `str(value)` on a decoded value: a `JavaString` yields its
content; the reprs of block data and object instances are modelled as
opaque non-numeric text. -/
def pyStr : JValue → String
  | .jstr s => s
  | .block _ => "[blockdata]"
  | .jobj _ => "[object]"

/-- Python `value == "literal"`: a `JavaString` compares by content,
any other decoded value compares unequal to a `str`. -/
def jvalIsStr (v : JValue) (s : String) : Bool :=
  match v with
  | .jstr t => t == s
  | _ => false

/-! ### The details record (the dict built by `get_reposync_details`) -/

/-- A value of the details dict: a boolean flag or the channel list
(`get_channel_details` can return `None`, hence `Option Channel`). -/
inductive DVal where
  | flag : Bool → DVal
  | chans : List (Option Channel) → DVal
deriving DecidableEq, Repr

/-- The details dict, as an insertion-ordered association list,
exactly as Python's `dict` preserves it. -/
abbrev Details := List (String × DVal)

/-- The dict literal at lstasko.py lines 210-216. -/
def initDetails : Details :=
  [("no-errata", .flag false), ("latest", .flag false),
   ("sync-kickstart", .flag false), ("fail", .flag false),
   ("channels", .chans [])]

/-- `d[k] = v` on a Python dict: replace the value of an existing key
in place, otherwise append the new key at the end. -/
def dictSet (d : Details) (k : String) (v : DVal) : Details :=
  if d.any (fun p => p.1 == k) then
    d.map (fun p => if p.1 == k then (k, v) else p)
  else d ++ [(k, v)]

/-- The current `details['channels']` list. -/
def getChans (d : Details) : List (Option Channel) :=
  match d.lookup "channels" with
  | some (.chans cs) => cs
  | _ => []

/-- `details['channels'].append(c)`. -/
def appendChan (d : Details) (c : Option Channel) : Details :=
  dictSet d "channels" (.chans (getChans d ++ [c]))

/-- Replace the whole `details['channels']` list. -/
def setChans (d : Details) (cs : List (Option Channel)) : Details :=
  dictSet d "channels" (.chans cs)

/-! ### `get_channel_details` (lstasko.py lines 347-441) -/

/-- The integer identifiers of a query, in encounter order
(`search_items['ids']`). -/
def identInts (xs : List Ident) : List Int :=
  xs.filterMap (fun x => match x with | .int i => some i | .str _ => none)

/-- The label identifiers of a query, in encounter order
(`search_items['labels']`). -/
def identStrs (xs : List Ident) : List String :=
  xs.filterMap (fun x => match x with | .int _ => none | .str s => some s)

/-- `search_items['ids']` for a full argument. -/
def searchIds : IdentArg → List Int
  | .single (.int i) => [i]
  | .single (.str _) => []
  | .list xs => identInts xs

/-- `search_items['labels']` for a full argument. -/
def searchLabels : IdentArg → List String
  | .single (.int _) => []
  | .single (.str s) => [s]
  | .list xs => identStrs xs

/-- The SQL `WHERE id IN (...) OR label IN (...)` row condition. -/
def matchesQuery (ids : List Int) (labels : List String) (ch : Channel) : Bool :=
  ids.contains ch.id || labels.contains ch.label

/-- Whether a catalog row matches one identifier. -/
def identMatches (x : Ident) (ch : Channel) : Bool :=
  match x with
  | .int i => ch.id == i
  | .str s => ch.label == s

/-- Return shapes of `get_channel_details`: Python `None`, a single
dict, or a list of dicts. -/
inductive ChanResult where
  | nothing
  | one : Channel → ChanResult
  | many : List Channel → ChanResult
deriving DecidableEq, Repr

/-- `get_channel_details` (lstasko.py lines 347-441): build the id and
label search lists, query the catalog, return `None` on an empty
result, raise `LSTaskoChannelNotFoundException` with the aggregated
missing identifiers when fewer rows than identifiers come back (and
`ignore_missing` is false), otherwise return the row(s). -/
def get_channel_details (cat : Catalog) (arg : IdentArg)
    (ignore_missing : Bool) : Except PyExc ChanResult :=
  let ids := searchIds arg
  let labels := searchLabels arg
  if ids.isEmpty && labels.isEmpty then .error .valueError
  else
    let result := cat.filter (matchesQuery ids labels)
    match result with
    | [] => .ok .nothing
    | r0 :: _ =>
      if result.length < ids.length + labels.length ∧ ignore_missing = false then
        let foundIds := (result.filter (fun row => ids.contains row.id)).map (·.id)
        let foundLabels :=
          (result.filter (fun row => labels.contains row.label)).map (·.label)
        let missing :=
          (ids.filter (fun i => !foundIds.contains i)).map Ident.int
            ++ (labels.filter (fun l => !foundLabels.contains l)).map Ident.str
        .error (.channelNotFound missing)
      else
        match arg with
        | .single _ => .ok (.one r0)
        | .list _ => .ok (.many result)

/-- The call `self.get_channel_details(channel_id)` made from the
decode path: a single `int` identifier with `ignore_missing` left at
its default `False`. -/
def resolveChannel (cat : Catalog) (i : Int) : Except PyExc (Option Channel) :=
  match get_channel_details cat (.single (.int i)) false with
  | .ok .nothing => .ok none
  | .ok (.one c) => .ok (some c)
  | .ok (.many _) => .ok none
  | .error e => .error e

/-- First catalog row with the given id (`result[0]` of the single-id
query). -/
def lookupChannel (cat : Catalog) (i : Int) : Option Channel :=
  (cat.filter (fun ch => ch.id == i)).head?

/-! ### The extraction loop of `get_reposync_details` (lines 218-255) -/

/-- The four flag keys of the closed vocabulary (line 248). -/
def flagKeys : List String := ["no-errata", "latest", "sync-kickstart", "fail"]

/-- `annotation in ['no-errata', 'latest', 'sync-kickstart', 'fail']`:
the matched key, if the value is a string in the vocabulary. -/
def jvalFlagKey (v : JValue) : Option String :=
  match v with
  | .jstr t => if flagKeys.contains t then some t else none
  | _ => none

/-- `int(str(v))` then `self.get_channel_details(channel_id)` then
`details['channels'].append(...)` (lines 233-237 and 242-246); an
error carries the details accumulated so far, as the Python dict is
mutated in place. -/
def resolveAndAppend (cat : Catalog) (d : Details) (v : JValue) :
    Except (PyExc × Details) Details :=
  match pyInt (pyStr v) with
  | none => .error (.valueError, d)
  | some cid =>
    match resolveChannel cat cid with
    | .error e => .error (e, d)
    | .ok c => .ok (appendChan d c)

/-- One entry of the nested container's annotation map (lines
228-237): skip containers with at most one annotation, otherwise
convert and append every annotation after the first. -/
def subListStep (cat : Catalog) (d : Details) (entry : JClass × List JValue) :
    Except (PyExc × Details) Details :=
  if entry.2.length > 1 then
    (entry.2.drop 1).foldlM (resolveAndAppend cat) d
  else .ok d

/-- The `channel_ids` case body (lines 227-237). -/
def channelIdsCase (cat : Catalog) (o : JObject) (d : Details) :
    Except (PyExc × Details) Details :=
  (annItemsOf o).foldlM (subListStep cat) d

/-- Error-propagating sequencing inside the extraction loop (a raised
exception skips the rest of the loop body). -/
def eseq : Except (PyExc × Details) Details →
    (Details → Except (PyExc × Details) Details) → Except (PyExc × Details) Details
  | .error e, _ => .error e
  | .ok d, f => f d

/-- One iteration of `for index, annotation in enumerate(annotations)`
(lines 225-250), faithful to the branch order of the Python code and
to the exceptions each branch can raise (`IndexError` from
`annotations[index+1]`, `AttributeError` from `.annotations` on a
non-object, `ValueError` from `int`). -/
def annStep (cat : Catalog) (anns : List JValue) (d : Details) (idx : Nat) :
    Except (PyExc × Details) Details :=
  let a := anns.getD idx (.jstr "")
  if jvalIsStr a "channel_ids" then
    match anns[idx + 1]? with
    | none => .error (.indexError, d)
    | some v =>
      match v with
      | .jobj o => channelIdsCase cat o d
      | _ => .error (.attributeError, d)
  else if jvalIsStr a "channel_id" then
    match anns[idx + 1]? with
    | none => .error (.indexError, d)
    | some v => resolveAndAppend cat d v
  else
    match jvalFlagKey a with
    | some k =>
      match anns[idx + 1]? with
      | none => .error (.indexError, d)
      | some v => .ok (dictSet d k (.flag (pyLower (pyStr v) == "true")))
    | none => .ok d

/-- The enumerate loop, driven by an index with fuel equal to the
number of remaining iterations. -/
def annLoop (cat : Catalog) (anns : List JValue) :
    Nat → Nat → Details → Except (PyExc × Details) Details
  | 0, _, d => .ok d
  | fuel + 1, idx, d =>
    if idx < anns.length then
      eseq (annStep cat anns d idx) (fun d2 => annLoop cat anns fuel (idx + 1) d2)
    else .ok d

/-- One entry of `obj.annotations.items()` (lines 220-223): everything
that is not a `java.util.HashMap` is skipped. -/
def classStep (cat : Catalog) (d : Details) (entry : JClass × List JValue) :
    Except (PyExc × Details) Details :=
  if entry.1.name == "java.util.HashMap" then
    annLoop cat entry.2 entry.2.length 0 d
  else .ok d

/-- The whole extraction over a successfully decoded object. -/
def extractDetails (cat : Catalog) (o : JObject) :
    Except (PyExc × Details) Details :=
  (annItemsOf o).foldlM (classStep cat) initDetails

/-- The body of the `try` block of `get_reposync_details` (lines
218-250): decode the payload, then run the extraction loop; an error
carries the details accumulated before it was raised. -/
def decodeBody (cat : Catalog) (data : Bytes) :
    Except (PyExc × Details) Details :=
  match javaobj_loads data with
  | .error e => .error (.parse e, initDetails)
  | .ok o => extractDetails cat o

/-- `get_reposync_details` (lstasko.py lines 208-255). The result type
`Except PyExc Details` is what the caller can observe: a returned
record or a propagated exception. The `except Exception: pass`
handler at lines 251-253 turns every raised exception into a normal
return of the accumulated details. -/
def get_reposync_details (cat : Catalog) (data : Bytes) : Except PyExc Details :=
  match decodeBody cat data with
  | .ok d => .ok d
  | .error (_, d) => .ok d

/-! ### An encoder for well-formed graph-format buffers

The claims quantify over "graph-format buffers containing entries
...". `mkGraphBuffer` produces such buffers, laid out exactly as the
spec's byte contract describes: stream magic, a new-object record for
a `java.util.HashMap`, an annotation block of `0x74` length-prefixed
strings (and, for multi-channel lists, a nested container whose
annotation block starts with its block-data segment), closed by the
`0x78` sentinel. -/

/-- Big-endian 2-byte encoding of a length. -/
def encShort (n : Nat) : Bytes := [n / 256 % 256, n % 256]

/-- The bytes of an ASCII string. -/
def strBytes (s : String) : Bytes := s.toList.map Char.toNat

/-- A scalar string record: tag `0x74`, 2-byte length, text. -/
def encStr (s : String) : Bytes := tagString :: encShort s.length ++ strBytes s

/-- A class-descriptor record with no declared fields. -/
def encClassDesc (nm : String) : Bytes :=
  tagClassDesc :: encShort nm.length ++ strBytes nm ++ [0, 0, tagNull]

/-- One entry of an encoded HashMap annotation block: a plain string
or a nested container of strings. -/
inductive GEntry where
  | es : String → GEntry
  | elist : List String → GEntry

/-- The block-data segment a nested container's annotation block
starts with (the writer's capacity/size words). -/
def nestedBlockData : Bytes := [0, 0, 0, 1]

/-- Encode one entry. -/
def encEntry : GEntry → Bytes
  | .es s => encStr s
  | .elist ss =>
    tagObject :: encClassDesc "java.util.ArrayList"
      ++ tagBlockData :: nestedBlockData.length :: nestedBlockData
      ++ (ss.map encStr).flatten ++ [tagEndBlock]

/-- A well-formed graph-format buffer whose HashMap annotation block
holds the given entries. -/
def mkGraphBuffer (entries : List GEntry) : Bytes :=
  streamMagic ++ tagObject :: encClassDesc "java.util.HashMap"
    ++ (entries.map encEntry).flatten ++ [tagEndBlock]

/-- The class descriptor of the target container type. -/
def hashMapClass : JClass := ⟨"java.util.HashMap", []⟩

/-- The class descriptor of the nested container. -/
def arrayListClass : JClass := ⟨"java.util.ArrayList", []⟩

/-- The decoded value an encoded entry stands for. -/
def entryVal : GEntry → JValue
  | .es s => .jstr s
  | .elist ss =>
    .jobj (.mk arrayListClass [] (.block nestedBlockData :: ss.map JValue.jstr))

/-- Encodability of a string: ASCII-range characters and a length
that fits the 2-byte length field. -/
def strOk (s : String) : Bool :=
  s.toList.all (fun c => c.toNat < 256) && s.length < 65536

/-- Encodability of an entry. -/
def entryOk : GEntry → Bool
  | .es s => strOk s
  | .elist ss => ss.all strOk

/-- Parser fuel sufficient for one encoded entry. -/
def entryFuel : GEntry → Nat
  | .es _ => 1
  | .elist ss => ss.length + 3

/-- Parser fuel sufficient for an encoded annotation block. -/
def entriesFuel : List GEntry → Nat
  | [] => 1
  | e :: es => 1 + max (entryFuel e) (entriesFuel es)

/-- The identifiers of a list query with no match in the catalog:
ids first, then labels, each in encounter order. -/
def missingOf (cat : Catalog) (xs : List Ident) : List Ident :=
  ((identInts xs).filter (fun i => !cat.any (fun ch => ch.id == i))).map Ident.int
    ++ ((identStrs xs).filter (fun l => !cat.any (fun ch => ch.label == l))).map Ident.str

/-- Normal form of every details dict the extraction loop can build:
the five keys of the initial literal, in order, with the current flag
values and channel list. -/
def mkDetails (f1 f2 f3 f4 : Bool) (cs : List (Option Channel)) : Details :=
  [("no-errata", .flag f1), ("latest", .flag f2),
   ("sync-kickstart", .flag f3), ("fail", .flag f4),
   ("channels", .chans cs)]

/-- A details dict in reachable shape. -/
def DetailsShape (d : Details) : Prop :=
  ∃ f1 f2 f3 f4 cs, d = mkDetails f1 f2 f3 f4 cs

/-- The `except Exception: pass` boundary: the details a caller sees,
whether the try body finished or raised. -/
def catchD : Except (PyExc × Details) Details → Details
  | .ok d => d
  | .error (_, d) => d

/-! ### Lemmas about `get_channel_details` -/

theorem resolveChannel_eq (cat : Catalog) (i : Int) :
    resolveChannel cat i = .ok (lookupChannel cat i) := by
  have hq : cat.filter (matchesQuery [i] []) = cat.filter (fun ch => ch.id == i) := by
    apply List.filter_congr
    intro ch _
    by_cases h : ch.id = i <;> simp [matchesQuery, h]
  unfold resolveChannel get_channel_details lookupChannel
  simp only [searchIds, searchLabels, List.isEmpty_cons, Bool.false_and,
    Bool.false_eq_true, if_false, hq]
  cases hfil : cat.filter (fun ch => ch.id == i) with
  | nil => simp
  | cons r0 tl => simp

theorem get_channel_details_missing (cat : Catalog) (xs : List Ident)
    (ig : Bool) (m : List Ident)
    (h : get_channel_details cat (.list xs) ig = .error (.channelNotFound m)) :
    m = missingOf cat xs := by
  unfold get_channel_details at h
  simp only [searchIds, searchLabels] at h
  split at h
  · simp at h
  · split at h
    · simp at h
    · next r0 tl heq =>
      split at h
      · simp only [Except.error.injEq, PyExc.channelNotFound.injEq] at h
        subst h
        unfold missingOf
        congr 1
        · congr 1
          apply List.filter_congr
          intro i hi
          congr 1
          rw [Bool.eq_iff_iff]
          simp only [List.contains_eq_any_beq, List.any_eq_true, List.mem_map,
            List.mem_filter]
          constructor
          · rintro ⟨x, ⟨row, ⟨⟨hrowcat, -⟩, -⟩, rfl⟩, hbeq⟩
            refine ⟨row, hrowcat, ?_⟩
            simp only [beq_iff_eq] at hbeq ⊢
            exact hbeq.symm
          · rintro ⟨ch, hch, hbeq⟩
            have hchid : ch.id = i := by simpa using hbeq
            refine ⟨ch.id, ⟨ch, ⟨⟨hch, ?_⟩, ?_⟩, rfl⟩, by simp [hchid]⟩
            · simp only [matchesQuery, List.contains_eq_any_beq, List.any_eq_true,
                Bool.or_eq_true]
              exact Or.inl ⟨i, hi, by simp [hchid]⟩
            · exact ⟨i, hi, beq_iff_eq.mpr hchid⟩
        · congr 1
          apply List.filter_congr
          intro l hl
          congr 1
          rw [Bool.eq_iff_iff]
          simp only [List.contains_eq_any_beq, List.any_eq_true, List.mem_map,
            List.mem_filter]
          constructor
          · rintro ⟨x, ⟨row, ⟨⟨hrowcat, -⟩, -⟩, rfl⟩, hbeq⟩
            refine ⟨row, hrowcat, ?_⟩
            simp only [beq_iff_eq] at hbeq ⊢
            exact hbeq.symm
          · rintro ⟨ch, hch, hbeq⟩
            have hchl : ch.label = l := by simpa using hbeq
            refine ⟨ch.label, ⟨ch, ⟨⟨hch, ?_⟩, ?_⟩, rfl⟩, by simp [hchl]⟩
            · simp only [matchesQuery, List.contains_eq_any_beq, List.any_eq_true,
                Bool.or_eq_true]
              exact Or.inr ⟨l, hl, by simp [hchl]⟩
            · exact ⟨l, hl, beq_iff_eq.mpr hchl⟩
      · simp at h

theorem get_channel_details_single_miss (cat : Catalog) (x : Ident) (ig : Bool)
    (h : ∀ ch ∈ cat, identMatches x ch = false) :
    get_channel_details cat (.single x) ig = .ok .nothing := by
  cases x with
  | int i =>
    have hq : cat.filter (matchesQuery [i] []) = [] := by
      rw [List.filter_eq_nil_iff]
      intro ch hch
      have := h ch hch
      simp only [identMatches, beq_eq_false_iff_ne, ne_eq] at this
      simp [matchesQuery, this]
    unfold get_channel_details
    simp [searchIds, searchLabels, hq]
  | str s =>
    have hq : cat.filter (matchesQuery [] [s]) = [] := by
      rw [List.filter_eq_nil_iff]
      intro ch hch
      have := h ch hch
      simp only [identMatches, beq_eq_false_iff_ne, ne_eq] at this
      simp [matchesQuery, this]
    unfold get_channel_details
    simp [searchIds, searchLabels, hq]

theorem get_channel_details_error_shape (cat : Catalog) (q : IdentArg)
    (ig : Bool) (m : List Ident)
    (h : get_channel_details cat q ig = .error (.channelNotFound m)) :
    ∃ xs, q = .list xs ∧ ig = false ∧
      cat.filter (matchesQuery (identInts xs) (identStrs xs)) ≠ [] ∧
      (cat.filter (matchesQuery (identInts xs) (identStrs xs))).length <
        (identInts xs).length + (identStrs xs).length := by
  cases q with
  | single x =>
    exfalso
    unfold get_channel_details at h
    cases x with
    | int i =>
      simp only [searchIds, searchLabels] at h
      split at h
      · simp at h
      · split at h
        · simp at h
        · next r0 tl heq =>
          split at h
          · next hcond =>
            rw [heq] at hcond
            simp at hcond
          · simp at h
    | str s =>
      simp only [searchIds, searchLabels] at h
      split at h
      · simp at h
      · split at h
        · simp at h
        · next r0 tl heq =>
          split at h
          · next hcond =>
            rw [heq] at hcond
            simp at hcond
          · simp at h
  | list xs =>
    refine ⟨xs, rfl, ?_⟩
    unfold get_channel_details at h
    simp only [searchIds, searchLabels] at h
    split at h
    · simp at h
    · split at h
      · simp at h
      · next r0 tl heq =>
        split at h
        · next hcond =>
          exact ⟨hcond.2, by simp [heq], hcond.1⟩
        · simp at h

/-! ### Encoder correctness: the modelled decoder inverts `mkGraphBuffer` -/

@[simp] theorem pbind_ok {A B : Type} (a : A) (f : A → Except PErr B) :
    pbind (.ok a) f = f a := rfl

@[simp] theorem pbind_error {A B : Type} (e : PErr) (f : A → Except PErr B) :
    pbind (.error e) f = .error e := rfl

@[simp] theorem readByte_cons (b : Nat) (rest : Bytes) :
    readByte (b :: rest) = .ok (b, rest) := rfl

theorem bytesToStr_strBytes (s : String) : bytesToStr (strBytes s) = s := by
  unfold bytesToStr strBytes
  rw [List.map_map]
  have hcomp : (Char.ofNat ∘ Char.toNat) = id := funext fun c => Char.ofNat_toNat c
  rw [hcomp, List.map_id]
  cases s
  rfl

theorem strBytes_length (s : String) : (strBytes s).length = s.length := by
  rw [strBytes, List.length_map]
  rfl

theorem readLenStr_enc (s : String) (rest : Bytes) (h : s.length < 65536) :
    readLenStr (encShort s.length ++ (strBytes s ++ rest)) = .ok (s, rest) := by
  have hsplit : s.length / 256 % 256 * 256 + s.length % 256 = s.length := by
    have hd : s.length / 256 < 256 := by omega
    rw [Nat.mod_eq_of_lt hd]
    omega
  have h1 : readShort (encShort s.length ++ (strBytes s ++ rest)) =
      .ok (s.length, strBytes s ++ rest) := by
    show Except.ok (s.length / 256 % 256 * 256 + s.length % 256, strBytes s ++ rest)
      = Except.ok (s.length, strBytes s ++ rest)
    rw [hsplit]
  have h2 : readN s.length (strBytes s ++ rest) = .ok (strBytes s, rest) := by
    unfold readN
    rw [if_pos (by simp [strBytes_length]), List.take_left' (strBytes_length s),
      List.drop_left' (strBytes_length s)]
  unfold readLenStr
  simp only [h1, pbind_ok, h2, bytesToStr_strBytes]

theorem parseItem_encStr (fuel : Nat) (arena : Arena) (rest : Bytes) (s : String)
    (hs : strOk s = true) :
    parseItem (fuel + 1) arena (encStr s ++ rest) =
      .ok (.jstr s, arena ++ [.hstr s], rest) := by
  have hlen : s.length < 65536 := by
    simp only [strOk, Bool.and_eq_true, decide_eq_true_eq] at hs
    exact hs.2
  unfold parseItem
  simp only [encStr, List.cons_append, readByte_cons, pbind_ok, if_true]
  rw [List.append_assoc, readLenStr_enc s rest hlen]
  rfl

theorem parseClassDesc_enc (arena : Arena) (rest : Bytes) (nm : String)
    (h : nm.length < 65536) :
    parseClassDesc arena (encClassDesc nm ++ rest) =
      .ok (⟨nm, []⟩, arena ++ [.cls ⟨nm, []⟩], rest) := by
  unfold parseClassDesc
  simp only [encClassDesc, List.cons_append, readByte_cons, pbind_ok, if_true]
  have hshape : encShort nm.length ++ strBytes nm ++ [0, 0, tagNull] ++ rest =
      encShort nm.length ++ (strBytes nm ++ (0 :: 0 :: tagNull :: rest)) := by
    simp [List.append_assoc]
  rw [hshape, readLenStr_enc nm (0 :: 0 :: tagNull :: rest) h]
  simp [readShort, readFieldNames, readByte, tagNull]

theorem parseStrAnns (ss : List String) (fuel : Nat) (arena : Arena) (rest : Bytes)
    (hss : ∀ s ∈ ss, strOk s = true) (hf : ss.length + 1 ≤ fuel) :
    parseItems fuel arena ((ss.map encStr).flatten ++ tagEndBlock :: rest) =
      .ok (ss.map .jstr, arena ++ ss.map .hstr, rest) := by
  induction ss generalizing fuel arena with
  | nil =>
    cases fuel with
    | zero => simp at hf
    | succ f =>
      unfold parseItems
      simp [readByte]
  | cons s ss ih =>
    cases fuel with
    | zero => simp at hf
    | succ f =>
      have hs : strOk s = true := hss s (by simp)
      have hshape : ((s :: ss).map encStr).flatten ++ tagEndBlock :: rest =
          encStr s ++ ((ss.map encStr).flatten ++ tagEndBlock :: rest) := by
        simp [List.append_assoc]
      rw [hshape]
      unfold parseItems
      have hcons : encStr s ++ ((ss.map encStr).flatten ++ tagEndBlock :: rest) =
          tagString :: (encShort s.length ++ strBytes s
            ++ ((ss.map encStr).flatten ++ tagEndBlock :: rest)) := by
        simp [encStr, List.append_assoc]
      rw [hcons]
      simp only [readByte_cons, pbind_ok]
      rw [if_neg (by decide : ¬ tagString = tagEndBlock), ← hcons]
      cases f with
      | zero => simp at hf
      | succ f2 =>
        rw [parseItem_encStr f2 arena _ s hs]
        simp only [pbind_ok]
        rw [ih _ _ (fun t ht => hss t (by simp [ht])) (by simp at hf ⊢; omega)]
        simp

theorem parseALAnns (ss : List String) (fuel : Nat) (arena : Arena) (rest : Bytes)
    (hss : ∀ s ∈ ss, strOk s = true) (hf : ss.length + 2 ≤ fuel) :
    parseItems fuel arena
      ((tagBlockData :: nestedBlockData.length :: nestedBlockData)
        ++ ((ss.map encStr).flatten ++ tagEndBlock :: rest)) =
      .ok (.block nestedBlockData :: ss.map .jstr, arena ++ ss.map .hstr, rest) := by
  cases fuel with
  | zero => omega
  | succ f =>
    unfold parseItems
    simp only [List.cons_append, readByte_cons, pbind_ok]
    rw [if_neg (by decide : ¬ tagBlockData = tagEndBlock)]
    cases f with
    | zero => omega
    | succ f2 =>
      unfold parseItem
      simp only [List.cons_append, readByte_cons, pbind_ok]
      rw [if_neg (by decide : ¬ tagBlockData = tagString)]
      simp only [if_true]
      have hblk : readN nestedBlockData.length
          (nestedBlockData ++ ((ss.map encStr).flatten ++ tagEndBlock :: rest)) =
          .ok (nestedBlockData, (ss.map encStr).flatten ++ tagEndBlock :: rest) := by
        unfold readN
        rw [if_pos (by simp), List.take_left' rfl, List.drop_left' rfl]
      simp only [hblk, pbind_ok]
      rw [parseStrAnns ss (f2 + 1) arena rest hss (by omega)]
      rfl

theorem parseItem_entry (e : GEntry) (fuel : Nat) (arena : Arena) (rest : Bytes)
    (he : entryOk e = true) (hf : entryFuel e ≤ fuel) :
    ∃ a2, parseItem fuel arena (encEntry e ++ rest) = .ok (entryVal e, a2, rest) := by
  cases e with
  | es s =>
    cases fuel with
    | zero => simp [entryFuel] at hf
    | succ f =>
      refine ⟨arena ++ [.hstr s], ?_⟩
      have hs : strOk s = true := by simpa [entryOk] using he
      simp only [encEntry, entryVal]
      exact parseItem_encStr f arena rest s hs
  | elist ss =>
    cases fuel with
    | zero => simp [entryFuel] at hf
    | succ f =>
      have hss : ∀ s ∈ ss, strOk s = true := by
        simpa [entryOk, List.all_eq_true] using he
      unfold parseItem
      have hcons : encEntry (.elist ss) ++ rest =
          tagObject :: (encClassDesc "java.util.ArrayList"
            ++ ((tagBlockData :: nestedBlockData.length :: nestedBlockData)
              ++ ((ss.map encStr).flatten ++ tagEndBlock :: rest))) := by
        simp [encEntry, List.append_assoc]
      rw [hcons]
      simp only [readByte_cons, pbind_ok]
      rw [if_neg (by decide : ¬ tagObject = tagString),
        if_neg (by decide : ¬ tagObject = tagBlockData)]
      simp only [if_true]
      rw [parseClassDesc_enc _ _ _ (by decide)]
      simp only [pbind_ok]
      have hfields : (JClass.mk "java.util.ArrayList" []).fieldNames.length = 0 := rfl
      rw [hfields]
      cases f with
      | zero => simp [entryFuel] at hf
      | succ f2 =>
        unfold parseNItems
        simp only [pbind_ok]
        rw [parseALAnns ss (f2 + 1) _ rest hss (by simp [entryFuel] at hf; omega)]
        exact ⟨_, rfl⟩

theorem parseEntries (es : List GEntry) (fuel : Nat) (arena : Arena) (rest : Bytes)
    (he : ∀ e ∈ es, entryOk e = true) (hf : entriesFuel es ≤ fuel) :
    ∃ a2, parseItems fuel arena ((es.map encEntry).flatten ++ tagEndBlock :: rest) =
      .ok (es.map entryVal, a2, rest) := by
  induction es generalizing fuel arena with
  | nil =>
    cases fuel with
    | zero => simp [entriesFuel] at hf
    | succ f =>
      refine ⟨arena, ?_⟩
      unfold parseItems
      simp [readByte]
  | cons e es ih =>
    cases fuel with
    | zero => simp [entriesFuel] at hf
    | succ f =>
      have hfe : entryFuel e ≤ f := by simp [entriesFuel] at hf; omega
      have hfes : entriesFuel es ≤ f := by simp [entriesFuel] at hf; omega
      have hshape : ((e :: es).map encEntry).flatten ++ tagEndBlock :: rest =
          encEntry e ++ ((es.map encEntry).flatten ++ tagEndBlock :: rest) := by
        simp [List.append_assoc]
      rw [hshape]
      unfold parseItems
      obtain ⟨b, bs, hbs, hbne⟩ :
          ∃ b bs, encEntry e ++ ((es.map encEntry).flatten ++ tagEndBlock :: rest)
            = b :: bs ∧ ¬ b = tagEndBlock := by
        cases e with
        | es s =>
          exact ⟨tagString, encShort s.length ++ (strBytes s
              ++ ((es.map encEntry).flatten ++ tagEndBlock :: rest)),
            by simp [encEntry, encStr, List.append_assoc], by decide⟩
        | elist ss =>
          exact ⟨tagObject, encClassDesc "java.util.ArrayList"
              ++ tagBlockData :: nestedBlockData.length :: (nestedBlockData
                ++ ((ss.map encStr).flatten ++ tagEndBlock
                  :: ((es.map encEntry).flatten ++ tagEndBlock :: rest))),
            by simp [encEntry, List.append_assoc], by decide⟩
      rw [hbs]
      simp only [readByte_cons, pbind_ok]
      rw [if_neg hbne, ← hbs]
      obtain ⟨a1, ha1⟩ := parseItem_entry e f arena _ (he e (by simp)) hfe
      rw [ha1]
      simp only [pbind_ok]
      obtain ⟨a2, ha2⟩ := ih f a1 (fun t ht => he t (by simp [ht])) hfes
      rw [ha2]
      exact ⟨a2, rfl⟩

theorem encStr_length (s : String) : (encStr s).length = 3 + s.length := by
  simp [encStr, encShort, strBytes_length]
  omega

theorem encEntry_length_pos (e : GEntry) : 1 ≤ (encEntry e).length := by
  cases e with
  | es s =>
    simp [encEntry, encStr_length]
    omega
  | elist ss => simp [encEntry]

theorem entryFuel_le_encLen (e : GEntry) : entryFuel e ≤ (encEntry e).length := by
  cases e with
  | es s =>
    simp [entryFuel, encEntry, encStr_length]
    omega
  | elist ss =>
    have hflat : ss.length ≤ ((ss.map encStr).flatten).length := by
      induction ss with
      | nil => simp
      | cons s ss ih =>
        simp only [List.map_cons, List.flatten_cons, List.length_append,
          List.length_cons, encStr_length]
        omega
    simp only [entryFuel, encEntry, List.length_cons, List.length_append]
    omega

theorem entriesFuel_le (es : List GEntry) :
    entriesFuel es ≤ ((es.map encEntry).flatten).length + 1 := by
  induction es with
  | nil => simp [entriesFuel]
  | cons e es ih =>
    have h1 := entryFuel_le_encLen e
    have h2 := encEntry_length_pos e
    simp only [entriesFuel, List.map_cons, List.flatten_cons, List.length_append]
    omega

theorem loads_mkGraphBuffer (entries : List GEntry)
    (he : ∀ e ∈ entries, entryOk e = true) :
    javaobj_loads (mkGraphBuffer entries) =
      .ok (.mk hashMapClass [] (entries.map entryVal)) := by
  have htake : (mkGraphBuffer entries).take 4 = streamMagic := rfl
  have hdrop : (mkGraphBuffer entries).drop 4 =
      tagObject :: (encClassDesc "java.util.HashMap"
        ++ ((entries.map encEntry).flatten ++ tagEndBlock :: [])) := rfl
  have hlen : (mkGraphBuffer entries).length =
      29 + ((entries.map encEntry).flatten).length := by
    simp [mkGraphBuffer, streamMagic, encClassDesc, encShort, strBytes]
    omega
  have hfuel : entriesFuel entries ≤ (mkGraphBuffer entries).length := by
    have := entriesFuel_le entries
    omega
  unfold javaobj_loads
  rw [if_pos htake, hdrop]
  obtain ⟨a2, ha2⟩ := parseEntries entries ((mkGraphBuffer entries).length)
    ([] ++ [.cls ⟨"java.util.HashMap", []⟩]) [] he hfuel
  have hstep : parseItem ((mkGraphBuffer entries).length + 1) []
      (tagObject :: (encClassDesc "java.util.HashMap"
        ++ ((entries.map encEntry).flatten ++ tagEndBlock :: []))) =
      .ok (.jobj (.mk hashMapClass [] (entries.map entryVal)),
        a2 ++ [.hobj (.mk hashMapClass [] (entries.map entryVal))], []) := by
    unfold parseItem
    simp only [readByte_cons, pbind_ok]
    rw [if_neg (by decide : ¬ tagObject = tagString),
      if_neg (by decide : ¬ tagObject = tagBlockData)]
    simp only [if_true]
    rw [parseClassDesc_enc _ _ _ (by decide)]
    simp only [pbind_ok]
    have hfields : (JClass.mk "java.util.HashMap" []).fieldNames.length = 0 := rfl
    rw [hfields]
    unfold parseNItems
    simp only [pbind_ok]
    rw [ha2]
    rfl
  rw [hstep]

/-! ### Extraction-layer lemmas -/

@[simp] theorem ebind_ok (d : Details) (f : Details → Except (PyExc × Details) Details) :
    (Except.ok d : Except (PyExc × Details) Details) >>= f = f d := rfl

@[simp] theorem ebind_error (e : PyExc × Details)
    (f : Details → Except (PyExc × Details) Details) :
    (Except.error e : Except (PyExc × Details) Details) >>= f = .error e := rfl

@[simp] theorem catchD_ok (d : Details) : catchD (.ok d) = d := rfl

@[simp] theorem catchD_error (e : PyExc) (d : Details) :
    catchD (.error (e, d)) = d := rfl

theorem get_reposync_details_eq_catch (cat : Catalog) (data : Bytes) :
    get_reposync_details cat data = .ok (catchD (decodeBody cat data)) := by
  unfold get_reposync_details
  cases h : decodeBody cat data with
  | ok d => rfl
  | error ed => cases ed; rfl

theorem reposync_graph (cat : Catalog) (entries : List GEntry)
    (he : ∀ e ∈ entries, entryOk e = true) :
    get_reposync_details cat (mkGraphBuffer entries) =
      .ok (catchD (annLoop cat (entries.map entryVal)
        (entries.map entryVal).length 0 initDetails)) := by
  rw [get_reposync_details_eq_catch]
  unfold decodeBody
  rw [loads_mkGraphBuffer entries he]
  unfold extractDetails annItemsOf
  simp only [JObject.cls, JObject.annList, List.foldlM_cons, List.foldlM_nil]
  unfold classStep
  rw [if_pos (by rfl)]
  cases h : annLoop cat (entries.map entryVal) (entries.map entryVal).length 0
      initDetails with
  | ok d => rfl
  | error ed => cases ed; rfl

theorem resolveAndAppend_jstr (cat : Catalog) (d : Details) (s : String) (i : Int)
    (hp : pyInt s = some i) :
    resolveAndAppend cat d (.jstr s) = .ok (appendChan d (lookupChannel cat i)) := by
  unfold resolveAndAppend
  simp only [pyStr, hp, resolveChannel_eq]

theorem annStep_last (cat : Catalog) (anns : List JValue) (d : Details) (idx : Nat)
    (h : anns.length = idx + 1) :
    annStep cat anns d idx = .ok d ∨ ∃ e, annStep cat anns d idx = .error (e, d) := by
  have hnone : anns[idx + 1]? = none := by
    rw [List.getElem?_eq_none]
    omega
  unfold annStep
  by_cases h1 : jvalIsStr (anns.getD idx (.jstr "")) "channel_ids" = true
  · rw [if_pos h1, hnone]
    exact Or.inr ⟨_, rfl⟩
  · rw [if_neg h1]
    by_cases h2 : jvalIsStr (anns.getD idx (.jstr "")) "channel_id" = true
    · rw [if_pos h2, hnone]
      exact Or.inr ⟨_, rfl⟩
    · rw [if_neg h2]
      cases hk : jvalFlagKey (anns.getD idx (.jstr "")) with
      | some k =>
        rw [hnone]
        exact Or.inr ⟨_, rfl⟩
      | none => exact Or.inl rfl

/-! ### mkDetails computation rules -/

theorem initDetails_eq : initDetails = mkDetails false false false false [] := rfl

theorem getChans_mk (f1 f2 f3 f4 : Bool) (cs : List (Option Channel)) :
    getChans (mkDetails f1 f2 f3 f4 cs) = cs := rfl

theorem appendChan_mk (f1 f2 f3 f4 : Bool) (cs : List (Option Channel))
    (c : Option Channel) :
    appendChan (mkDetails f1 f2 f3 f4 cs) c = mkDetails f1 f2 f3 f4 (cs ++ [c]) := rfl

theorem setChans_mk (f1 f2 f3 f4 : Bool) (cs cs2 : List (Option Channel)) :
    setChans (mkDetails f1 f2 f3 f4 cs) cs2 = mkDetails f1 f2 f3 f4 cs2 := rfl

theorem dictSet_mk_noerrata (f1 f2 f3 f4 : Bool) (cs : List (Option Channel)) (b : Bool) :
    dictSet (mkDetails f1 f2 f3 f4 cs) "no-errata" (.flag b) =
      mkDetails b f2 f3 f4 cs := rfl

theorem dictSet_mk_latest (f1 f2 f3 f4 : Bool) (cs : List (Option Channel)) (b : Bool) :
    dictSet (mkDetails f1 f2 f3 f4 cs) "latest" (.flag b) =
      mkDetails f1 b f3 f4 cs := rfl

theorem dictSet_mk_synckickstart (f1 f2 f3 f4 : Bool) (cs : List (Option Channel)) (b : Bool) :
    dictSet (mkDetails f1 f2 f3 f4 cs) "sync-kickstart" (.flag b) =
      mkDetails f1 f2 b f4 cs := rfl

theorem dictSet_mk_fail (f1 f2 f3 f4 : Bool) (cs : List (Option Channel)) (b : Bool) :
    dictSet (mkDetails f1 f2 f3 f4 cs) "fail" (.flag b) =
      mkDetails f1 f2 f3 b cs := rfl

theorem subfold (cat : Catalog) (pairs : List (String × Int))
    (hp : ∀ p ∈ pairs, pyInt p.1 = some p.2)
    (f1 f2 f3 f4 : Bool) (cs : List (Option Channel)) :
    (pairs.map (fun p => JValue.jstr p.1)).foldlM (resolveAndAppend cat)
        (mkDetails f1 f2 f3 f4 cs) =
      .ok (mkDetails f1 f2 f3 f4 (cs ++ pairs.map (fun p => lookupChannel cat p.2))) := by
  induction pairs generalizing cs with
  | nil =>
    simp only [List.map_nil, List.foldlM_nil, List.append_nil]
    rfl
  | cons p ps ih =>
    simp only [List.map_cons, List.foldlM_cons]
    rw [resolveAndAppend_jstr cat _ p.1 p.2 (hp p (by simp)), appendChan_mk]
    simp only [ebind_ok]
    rw [ih (fun q hq => hp q (by simp [hq]))]
    simp

/-! ### The reachable-shape invariant of the details dict -/

theorem shape_init : DetailsShape initDetails :=
  ⟨false, false, false, false, [], rfl⟩

theorem shape_appendChan (d : Details) (c : Option Channel)
    (hd : DetailsShape d) : DetailsShape (appendChan d c) := by
  obtain ⟨f1, f2, f3, f4, cs, rfl⟩ := hd
  rw [appendChan_mk]
  exact ⟨f1, f2, f3, f4, cs ++ [c], rfl⟩

theorem jvalFlagKey_mem (v : JValue) (k : String) (h : jvalFlagKey v = some k) :
    k ∈ flagKeys := by
  cases v with
  | jstr t =>
    simp only [jvalFlagKey] at h
    by_cases hc : flagKeys.contains t = true
    · rw [if_pos hc] at h
      cases h
      simpa [List.contains_eq_any_beq, List.any_eq_true] using hc
    · rw [if_neg hc] at h
      cases h
  | block bs => cases h
  | jobj o => cases h

theorem shape_dictSet_flag (d : Details) (k : String) (b : Bool)
    (hk : k ∈ flagKeys) (hd : DetailsShape d) :
    DetailsShape (dictSet d k (.flag b)) := by
  obtain ⟨f1, f2, f3, f4, cs, rfl⟩ := hd
  simp only [flagKeys, List.mem_cons, List.mem_singleton, List.not_mem_nil,
    or_false] at hk
  rcases hk with rfl | rfl | rfl | rfl
  · rw [dictSet_mk_noerrata]; exact ⟨b, f2, f3, f4, cs, rfl⟩
  · rw [dictSet_mk_latest]; exact ⟨f1, b, f3, f4, cs, rfl⟩
  · rw [dictSet_mk_synckickstart]; exact ⟨f1, f2, b, f4, cs, rfl⟩
  · rw [dictSet_mk_fail]; exact ⟨f1, f2, f3, b, cs, rfl⟩

theorem shape_resolveAndAppend (cat : Catalog) (d : Details) (v : JValue)
    (hd : DetailsShape d) : DetailsShape (catchD (resolveAndAppend cat d v)) := by
  cases hpi : pyInt (pyStr v) with
  | none =>
    simp only [resolveAndAppend, hpi]
    exact hd
  | some i =>
    simp only [resolveAndAppend, hpi, resolveChannel_eq]
    exact shape_appendChan d _ hd

theorem shape_foldlM {α : Type} (f : Details → α → Except (PyExc × Details) Details)
    (l : List α) (d : Details)
    (hf : ∀ d x, DetailsShape d → DetailsShape (catchD (f d x)))
    (hd : DetailsShape d) : DetailsShape (catchD (l.foldlM f d)) := by
  induction l generalizing d with
  | nil => exact hd
  | cons x l ih =>
    rw [List.foldlM_cons]
    cases hfx : f d x with
    | error ed =>
      obtain ⟨e, d2⟩ := ed
      have := hf d x hd
      rw [hfx] at this
      simpa using this
    | ok d1 =>
      have hs1 : DetailsShape d1 := by
        have := hf d x hd
        rw [hfx] at this
        simpa using this
      simpa using ih d1 hs1

theorem shape_subListStep (cat : Catalog) (d : Details)
    (entry : JClass × List JValue) (hd : DetailsShape d) :
    DetailsShape (catchD (subListStep cat d entry)) := by
  unfold subListStep
  split
  · exact shape_foldlM _ _ d (fun d2 v h => shape_resolveAndAppend cat d2 v h) hd
  · exact hd

theorem shape_channelIdsCase (cat : Catalog) (o : JObject) (d : Details)
    (hd : DetailsShape d) : DetailsShape (catchD (channelIdsCase cat o d)) := by
  unfold channelIdsCase
  exact shape_foldlM _ _ d (fun d2 en h => shape_subListStep cat d2 en h) hd

theorem shape_annStep (cat : Catalog) (anns : List JValue) (d : Details) (idx : Nat)
    (hd : DetailsShape d) : DetailsShape (catchD (annStep cat anns d idx)) := by
  by_cases h1 : jvalIsStr (anns.getD idx (.jstr "")) "channel_ids" = true
  · cases hnext : anns[idx + 1]? with
    | none =>
      simp only [annStep, h1, if_true, hnext]
      exact hd
    | some v =>
      cases v with
      | jstr s =>
        simp only [annStep, h1, if_true, hnext]
        exact hd
      | block bs =>
        simp only [annStep, h1, if_true, hnext]
        exact hd
      | jobj o =>
        simp only [annStep, h1, if_true, hnext]
        exact shape_channelIdsCase cat o d hd
  · by_cases h2 : jvalIsStr (anns.getD idx (.jstr "")) "channel_id" = true
    · cases hnext : anns[idx + 1]? with
      | none =>
        simp only [annStep, h1, h2, hnext, Bool.false_eq_true, if_false, if_true]
        exact hd
      | some v =>
        simp only [annStep, h1, h2, hnext, Bool.false_eq_true, if_false, if_true]
        exact shape_resolveAndAppend cat d v hd
    · cases hk : jvalFlagKey (anns.getD idx (.jstr "")) with
      | some k =>
        cases hnext : anns[idx + 1]? with
        | none =>
          simp only [annStep, h1, h2, hk, hnext, Bool.false_eq_true, if_false]
          exact hd
        | some v =>
          simp only [annStep, h1, h2, hk, hnext, Bool.false_eq_true, if_false]
          exact shape_dictSet_flag d k _ (jvalFlagKey_mem _ k hk) hd
      | none =>
        simp only [annStep, h1, h2, hk, Bool.false_eq_true, if_false]
        exact hd

theorem shape_annLoop (cat : Catalog) (anns : List JValue) (fuel idx : Nat)
    (d : Details) (hd : DetailsShape d) :
    DetailsShape (catchD (annLoop cat anns fuel idx d)) := by
  induction fuel generalizing idx d with
  | zero => exact hd
  | succ f ih =>
    by_cases hi : idx < anns.length
    · cases hstep : annStep cat anns d idx with
      | error ed =>
        obtain ⟨e, d2⟩ := ed
        have h := shape_annStep cat anns d idx hd
        rw [hstep] at h
        simp only [annLoop, hstep, if_pos hi]
        simpa using h
      | ok d2 =>
        have h := shape_annStep cat anns d idx hd
        rw [hstep] at h
        simp only [catchD_ok] at h
        simp only [annLoop, hstep, if_pos hi]
        exact ih (idx + 1) d2 h
    · simp only [annLoop, if_neg hi]
      exact hd

theorem shape_classStep (cat : Catalog) (d : Details)
    (entry : JClass × List JValue) (hd : DetailsShape d) :
    DetailsShape (catchD (classStep cat d entry)) := by
  unfold classStep
  split
  · exact shape_annLoop cat entry.2 entry.2.length 0 d hd
  · exact hd

@[simp] theorem eseq_ok (d : Details) (f : Details → Except (PyExc × Details) Details) :
    eseq (.ok d) f = f d := rfl

@[simp] theorem eseq_error (e : PyExc × Details)
    (f : Details → Except (PyExc × Details) Details) :
    eseq (.error e) f = .error e := rfl

@[simp] theorem ebind_pure (x : Except (PyExc × Details) Details) :
    (x >>= fun d => (pure d : Except (PyExc × Details) Details)) = x := by
  cases x <;> rfl

theorem annLoop_zero (cat : Catalog) (anns : List JValue) (idx : Nat) (d : Details) :
    annLoop cat anns 0 idx d = .ok d := rfl

theorem annLoop_succ (cat : Catalog) (anns : List JValue) (fuel idx : Nat) (d : Details) :
    annLoop cat anns (fuel + 1) idx d =
      if idx < anns.length then
        eseq (annStep cat anns d idx) (fun d2 => annLoop cat anns fuel (idx + 1) d2)
      else .ok d := rfl

theorem annLoop_ok_step (cat : Catalog) (anns : List JValue) (fuel idx : Nat)
    (d0 d1 : Details) (hi : idx < anns.length)
    (h : annStep cat anns d0 idx = .ok d1) :
    annLoop cat anns (fuel + 1) idx d0 = annLoop cat anns fuel (idx + 1) d1 := by
  rw [annLoop_succ, if_pos hi, h, eseq_ok]

theorem catch_annLoop_err (cat : Catalog) (anns : List JValue) (fuel idx : Nat)
    (d0 d1 : Details) (e : PyExc) (hi : idx < anns.length)
    (h : annStep cat anns d0 idx = .error (e, d1)) :
    catchD (annLoop cat anns (fuel + 1) idx d0) = d1 := by
  rw [annLoop_succ, if_pos hi, h, eseq_error, catchD_error]

theorem catch_annLoop_last (cat : Catalog) (anns : List JValue) (d1 : Details)
    (idx fuel : Nat) (h : anns.length = idx + 1) :
    catchD (annLoop cat anns (fuel + 1) idx d1) = d1 := by
  rcases annStep_last cat anns d1 idx h with h0 | ⟨e, h0⟩
  · rw [annLoop_succ, if_pos (by omega), h0, eseq_ok]
    cases fuel with
    | zero => rw [annLoop_zero, catchD_ok]
    | succ f =>
      rw [annLoop_succ, if_neg (by omega), catchD_ok]
  · rw [annLoop_succ, if_pos (by omega), h0, eseq_error, catchD_error]

theorem catch_annLoop_two (cat : Catalog) (anns : List JValue) (d0 d1 : Details)
    (hlen : anns.length = 2) (h0 : annStep cat anns d0 0 = .ok d1) :
    catchD (annLoop cat anns anns.length 0 d0) = d1 := by
  have hfuel : annLoop cat anns anns.length 0 d0 = annLoop cat anns (1 + 1) 0 d0 := by
    rw [hlen]
  rw [hfuel, annLoop_ok_step cat anns 1 0 d0 d1 (by omega) h0]
  exact catch_annLoop_last cat anns d1 (0 + 1) 0 (by omega)

/-! ### Evaluating one annotation step at the known keys -/

theorem annStep_flag (cat : Catalog) (anns : List JValue) (d : Details) (idx : Nat)
    (k : String) (v : JValue) (ha : anns.getD idx (.jstr "") = .jstr k)
    (hk : k ∈ flagKeys) (hv : anns[idx + 1]? = some v) :
    annStep cat anns d idx =
      .ok (dictSet d k (.flag (pyLower (pyStr v) == "true"))) := by
  simp only [flagKeys, List.mem_cons, List.mem_singleton, List.not_mem_nil,
    or_false] at hk
  have h1 : jvalIsStr (anns.getD idx (.jstr "")) "channel_ids" = false := by
    rw [ha]
    rcases hk with rfl | rfl | rfl | rfl <;> rfl
  have h2 : jvalIsStr (anns.getD idx (.jstr "")) "channel_id" = false := by
    rw [ha]
    rcases hk with rfl | rfl | rfl | rfl <;> rfl
  have h3 : jvalFlagKey (anns.getD idx (.jstr "")) = some k := by
    rw [ha]
    rcases hk with rfl | rfl | rfl | rfl <;> rfl
  simp only [annStep, h1, Bool.false_eq_true, if_false, h2, h3, hv]

theorem annStep_chanid (cat : Catalog) (anns : List JValue) (d : Details) (idx : Nat)
    (v : JValue) (ha : anns.getD idx (.jstr "") = .jstr "channel_id")
    (hv : anns[idx + 1]? = some v) :
    annStep cat anns d idx = resolveAndAppend cat d v := by
  have h1 : jvalIsStr (anns.getD idx (.jstr "")) "channel_ids" = false := by
    rw [ha]; rfl
  have h2 : jvalIsStr (anns.getD idx (.jstr "")) "channel_id" = true := by
    rw [ha]; rfl
  simp only [annStep, h1, Bool.false_eq_true, if_false, h2, if_true, hv]

theorem annStep_chanids (cat : Catalog) (anns : List JValue) (d : Details) (idx : Nat)
    (o : JObject) (ha : anns.getD idx (.jstr "") = .jstr "channel_ids")
    (hv : anns[idx + 1]? = some (.jobj o)) :
    annStep cat anns d idx = channelIdsCase cat o d := by
  have h1 : jvalIsStr (anns.getD idx (.jstr "")) "channel_ids" = true := by
    rw [ha]; rfl
  simp only [annStep, h1, if_true, hv]

theorem annStep_skip (cat : Catalog) (anns : List JValue) (d : Details) (idx : Nat)
    (h1 : jvalIsStr (anns.getD idx (.jstr "")) "channel_ids" = false)
    (h2 : jvalIsStr (anns.getD idx (.jstr "")) "channel_id" = false)
    (h3 : jvalFlagKey (anns.getD idx (.jstr "")) = none) :
    annStep cat anns d idx = .ok d := by
  simp only [annStep, h1, Bool.false_eq_true, if_false, h2, h3]

theorem channelIdsCase_eval (cat : Catalog) (pairs : List (String × Int)) (bs : Bytes)
    (hp : ∀ p ∈ pairs, pyInt p.1 = some p.2)
    (f1 f2 f3 f4 : Bool) (cs : List (Option Channel)) :
    channelIdsCase cat
        (.mk arrayListClass [] (.block bs :: pairs.map (fun p => JValue.jstr p.1)))
        (mkDetails f1 f2 f3 f4 cs) =
      .ok (mkDetails f1 f2 f3 f4 (cs ++ pairs.map (fun p => lookupChannel cat p.2))) := by
  unfold channelIdsCase annItemsOf
  simp only [JObject.cls, JObject.annList, List.foldlM_cons, List.foldlM_nil]
  unfold subListStep
  cases pairs with
  | nil =>
    simp only [List.map_nil, List.length_cons, List.length_nil]
    rw [if_neg (by omega)]
    simp
  | cons p ps =>
    simp only [List.map_cons, List.length_cons]
    rw [if_pos (by omega)]
    simp only [List.drop_succ_cons, List.drop_zero]
    have := subfold cat (p :: ps) hp f1 f2 f3 f4 cs
    simp only [List.map_cons] at this
    rw [this]
    simp

theorem shape_reposync (cat : Catalog) (data : Bytes) :
    DetailsShape (catchD (decodeBody cat data)) := by
  unfold decodeBody
  cases javaobj_loads data with
  | error e => exact shape_init
  | ok o =>
    unfold extractDetails
    exact shape_foldlM _ _ initDetails
      (fun d2 en h => shape_classStep cat d2 en h) shape_init

/-! ### End-to-end evaluation of the encoded buffer families -/

theorem reposync_flag_eval (cat : Catalog) (k v : String)
    (hk : k ∈ flagKeys) (hkok : strOk k = true) (hv : strOk v = true) :
    get_reposync_details cat (mkGraphBuffer [.es k, .es v]) =
      .ok (dictSet initDetails k (.flag (pyLower v == "true"))) := by
  have hok : ∀ e ∈ [GEntry.es k, GEntry.es v], entryOk e = true := by
    intro e he
    simp only [List.mem_cons, List.not_mem_nil, or_false] at he
    rcases he with rfl | rfl
    · exact hkok
    · exact hv
  rw [reposync_graph cat _ hok]
  simp only [List.map_cons, List.map_nil, entryVal]
  congr 1
  have h0 : annStep cat [JValue.jstr k, JValue.jstr v] initDetails 0 =
      .ok (dictSet initDetails k (.flag (pyLower (pyStr (.jstr v)) == "true"))) :=
    annStep_flag cat _ initDetails 0 k (.jstr v) rfl hk rfl
  rw [catch_annLoop_two cat [JValue.jstr k, JValue.jstr v] initDetails _ rfl h0]
  rfl

theorem reposync_channel_id_eval (cat : Catalog) (s : String) (N : Int)
    (hs : strOk s = true) (hp : pyInt s = some N) :
    get_reposync_details cat (mkGraphBuffer [.es "channel_id", .es s]) =
      .ok (setChans initDetails [lookupChannel cat N]) := by
  have hok : ∀ e ∈ [GEntry.es "channel_id", GEntry.es s], entryOk e = true := by
    intro e he
    simp only [List.mem_cons, List.not_mem_nil, or_false] at he
    rcases he with rfl | rfl
    · decide
    · exact hs
  rw [reposync_graph cat _ hok]
  simp only [List.map_cons, List.map_nil, entryVal]
  congr 1
  have h0 : annStep cat [JValue.jstr "channel_id", JValue.jstr s] initDetails 0 =
      .ok (appendChan initDetails (lookupChannel cat N)) := by
    rw [annStep_chanid cat [JValue.jstr "channel_id", JValue.jstr s] initDetails 0
      (.jstr s) rfl rfl]
    exact resolveAndAppend_jstr cat initDetails s N hp
  rw [catch_annLoop_two cat [JValue.jstr "channel_id", JValue.jstr s] initDetails _
    rfl h0]
  rw [initDetails_eq, appendChan_mk, setChans_mk]
  simp

theorem reposync_channel_ids_eval (cat : Catalog) (pairs : List (String × Int))
    (hp : ∀ p ∈ pairs, strOk p.1 = true ∧ pyInt p.1 = some p.2) :
    get_reposync_details cat
        (mkGraphBuffer [.es "channel_ids", .elist (pairs.map Prod.fst)]) =
      .ok (setChans initDetails (pairs.map (fun p => lookupChannel cat p.2))) := by
  have hok : ∀ e ∈ [GEntry.es "channel_ids", GEntry.elist (pairs.map Prod.fst)],
      entryOk e = true := by
    intro e he
    simp only [List.mem_cons, List.not_mem_nil, or_false] at he
    rcases he with rfl | rfl
    · decide
    · simp only [entryOk, List.all_eq_true]
      intro s hs
      obtain ⟨p, hpmem, rfl⟩ := List.mem_map.mp hs
      exact (hp p hpmem).1
  rw [reposync_graph cat _ hok]
  simp only [List.map_cons, List.map_nil, entryVal]
  have hmaps : (pairs.map Prod.fst).map JValue.jstr =
      pairs.map (fun p => JValue.jstr p.1) := by
    rw [List.map_map]
    rfl
  rw [hmaps]
  congr 1
  have h0 : annStep cat
      [JValue.jstr "channel_ids",
        .jobj (.mk arrayListClass []
          (.block nestedBlockData :: pairs.map (fun p => JValue.jstr p.1)))]
      initDetails 0 =
      .ok (mkDetails false false false false
        (pairs.map (fun p => lookupChannel cat p.2))) := by
    rw [annStep_chanids cat
      [JValue.jstr "channel_ids",
        .jobj (.mk arrayListClass []
          (.block nestedBlockData
            :: pairs.map (fun (p : String × Int) => JValue.jstr p.1)))]
      initDetails 0
      (.mk arrayListClass []
        (.block nestedBlockData
          :: pairs.map (fun (p : String × Int) => JValue.jstr p.1)))
      rfl rfl, initDetails_eq]
    have := channelIdsCase_eval cat pairs nestedBlockData
      (fun p hpm => (hp p hpm).2) false false false false []
    rw [this]
    simp
  rw [catch_annLoop_two cat
    [JValue.jstr "channel_ids",
      .jobj (.mk arrayListClass []
        (.block nestedBlockData :: pairs.map (fun p => JValue.jstr p.1)))]
    initDetails _ rfl h0]
  rw [initDetails_eq, setChans_mk]

theorem reposync_abort_eval (cat : Catalog) (rest : List String)
    (hr : ∀ s ∈ rest, strOk s = true) :
    get_reposync_details cat
        (mkGraphBuffer ([.es "fail", .es "true", .es "channel_id", .es "abc"]
          ++ rest.map GEntry.es)) =
      .ok (dictSet initDetails "fail" (.flag true)) := by
  have hok : ∀ e ∈ ([GEntry.es "fail", .es "true", .es "channel_id", .es "abc"]
      ++ rest.map GEntry.es), entryOk e = true := by
    intro e he
    rw [List.mem_append] at he
    rcases he with he | he
    · simp only [List.mem_cons, List.not_mem_nil, or_false] at he
      rcases he with rfl | rfl | rfl | rfl <;> decide
    · obtain ⟨s, hs, rfl⟩ := List.mem_map.mp he
      exact hr s hs
  rw [reposync_graph cat _ hok]
  have hmaps : (([GEntry.es "fail", .es "true", .es "channel_id", .es "abc"]
      ++ rest.map GEntry.es).map entryVal) =
      [JValue.jstr "fail", .jstr "true", .jstr "channel_id", .jstr "abc"]
        ++ rest.map JValue.jstr := by
    simp only [List.map_append, List.map_cons, List.map_nil, entryVal,
      List.map_map]
    rfl
  rw [hmaps]
  congr 1
  have hlen : ([JValue.jstr "fail", JValue.jstr "true", JValue.jstr "channel_id",
      JValue.jstr "abc"] ++ rest.map JValue.jstr).length = rest.length + 4 := by
    simp
  have h0 : annStep cat ([JValue.jstr "fail", JValue.jstr "true", JValue.jstr "channel_id",
      JValue.jstr "abc"] ++ rest.map JValue.jstr) initDetails 0 =
      .ok (dictSet initDetails "fail" (.flag true)) :=
    annStep_flag cat ([JValue.jstr "fail", JValue.jstr "true", JValue.jstr "channel_id",
      JValue.jstr "abc"] ++ rest.map JValue.jstr) initDetails 0 "fail" (.jstr "true") rfl (by decide) rfl
  have h1 : annStep cat ([JValue.jstr "fail", JValue.jstr "true", JValue.jstr "channel_id",
      JValue.jstr "abc"] ++ rest.map JValue.jstr)
      (dictSet initDetails "fail" (.flag true)) (0 + 1) =
      .ok (dictSet initDetails "fail" (.flag true)) :=
    annStep_skip cat ([JValue.jstr "fail", JValue.jstr "true", JValue.jstr "channel_id",
      JValue.jstr "abc"] ++ rest.map JValue.jstr) _ (0 + 1) rfl rfl rfl
  have h2 : annStep cat ([JValue.jstr "fail", JValue.jstr "true", JValue.jstr "channel_id",
      JValue.jstr "abc"] ++ rest.map JValue.jstr)
      (dictSet initDetails "fail" (.flag true)) (0 + 1 + 1) =
      .error (.valueError, dictSet initDetails "fail" (.flag true)) := by
    have hv3 : ([JValue.jstr "fail", JValue.jstr "true", JValue.jstr "channel_id",
      JValue.jstr "abc"] ++ rest.map JValue.jstr)[0 + 1 + 1 + 1]? = some (JValue.jstr "abc") := by
      rw [List.getElem?_append_left (by simp)]
      rfl
    rw [annStep_chanid cat ([JValue.jstr "fail", JValue.jstr "true", JValue.jstr "channel_id",
      JValue.jstr "abc"] ++ rest.map JValue.jstr) _ (0 + 1 + 1) (.jstr "abc") rfl hv3]
    simp only [resolveAndAppend, pyStr,
      show pyInt "abc" = none from rfl]
  rw [show ([JValue.jstr "fail", JValue.jstr "true", JValue.jstr "channel_id",
      JValue.jstr "abc"] ++ rest.map JValue.jstr).length = (rest.length + 3) + 1 from by rw [hlen]]
  rw [annLoop_ok_step cat ([JValue.jstr "fail", JValue.jstr "true", JValue.jstr "channel_id",
      JValue.jstr "abc"] ++ rest.map JValue.jstr) (rest.length + 3) 0 initDetails _
    (by simp) h0]
  rw [show rest.length + 3 = (rest.length + 2) + 1 from rfl]
  rw [annLoop_ok_step cat ([JValue.jstr "fail", JValue.jstr "true", JValue.jstr "channel_id",
      JValue.jstr "abc"] ++ rest.map JValue.jstr) (rest.length + 2) (0 + 1) _ _
    (by simp) h1]
  rw [show rest.length + 2 = (rest.length + 1) + 1 from rfl]
  exact catch_annLoop_err cat ([JValue.jstr "fail", JValue.jstr "true", JValue.jstr "channel_id",
      JValue.jstr "abc"] ++ rest.map JValue.jstr) (rest.length + 1) (0 + 1 + 1) _ _ .valueError
    (by simp) h2


/-! ## Claim theorems -/

/-- C1: For every input byte sequence, including any truncation of a
well-formed buffer at a byte boundary, `get_reposync_details` returns a
result record and never lets an exception propagate to the caller: the
observable result is always `Except.ok` of a details record, with every
parse-level failure converted into data (the accumulated record — empty
for a malformed buffer, partial for a mid-extraction failure). -/
theorem spec_C1 :
    (∀ (cat : Catalog) (data : Bytes),
      ∃ d, get_reposync_details cat data = .ok d)
    ∧ (∀ (cat : Catalog) (entries : List GEntry) (n : Nat),
      (∀ e ∈ entries, entryOk e = true) →
      ∃ d, get_reposync_details cat ((mkGraphBuffer entries).take n) = .ok d) := by
  constructor
  · intro cat data
    exact ⟨_, get_reposync_details_eq_catch cat data⟩
  · intro cat entries n _
    exact ⟨_, get_reposync_details_eq_catch cat _⟩

/-- C1 witness: a well-formed two-entry buffer truncated after 7 bytes
still decodes to an `ok` record. -/
theorem spec_C1_witness :
    (∀ e ∈ [GEntry.es "latest", GEntry.es "true"], entryOk e = true)
    ∧ ∃ d, get_reposync_details []
        ((mkGraphBuffer [GEntry.es "latest", GEntry.es "true"]).take 7) = .ok d :=
  ⟨by decide, spec_C1.2 [] [GEntry.es "latest", GEntry.es "true"] 7 (by decide)⟩

/-- C2 counterexample: the claim says the resolver's not-found condition
propagates past the decode to the caller. On the code it does not: with
an empty catalog, decoding a buffer that names channel id 999 returns a
normal record whose channel list holds a `None` entry — `except
Exception: pass` at lstasko.py lines 251-253 catches every exception,
`LSTaskoChannelNotFoundException` included, and the single-id call at
line 236 returns `None` for a missing channel instead of raising. -/
theorem spec_C2_counterexample :
    get_reposync_details [] (mkGraphBuffer [.es "channel_id", .es "999"]) =
      .ok (setChans initDetails [none]) := rfl

/-- C2 (amended): during a decode every error condition — the resolver's
not-found condition included — is absorbed locally by the catch-all
handler; `get_reposync_details` never surfaces an exception to its
caller, and a channel id with no catalog match surfaces as a `None`
entry in the channel list rather than as an exception. -/
theorem spec_C2_amended :
    (∀ (cat : Catalog) (data : Bytes) (e : PyExc),
      get_reposync_details cat data ≠ .error e)
    ∧ (∀ (cat : Catalog) (s : String) (N : Int),
      strOk s = true → pyInt s = some N → lookupChannel cat N = none →
      get_reposync_details cat (mkGraphBuffer [.es "channel_id", .es s]) =
        .ok (setChans initDetails [none])) := by
  constructor
  · intro cat data e
    rw [get_reposync_details_eq_catch]
    simp
  · intro cat s N hs hp hnone
    rw [reposync_channel_id_eval cat s N hs hp, hnone]

/-- C2 witness: an unmatched channel id 42 over the empty catalog yields
an `ok` record with a single `None` channel entry. -/
theorem spec_C2_witness :
    get_reposync_details [] (mkGraphBuffer [.es "channel_id", .es "42"]) =
      .ok (setChans initDetails [none]) :=
  spec_C2_amended.2 [] "42" 42 (by decide) (by decide) rfl

/-- C3: every buffer whose first 4 bytes differ from the magic sequence
`0xAC 0xED 0x00 0x05` decodes to the empty record (all flags false,
empty channel list — the null/empty surface of `NotThisFormat`),
regardless of the remaining content. -/
theorem spec_C3 (cat : Catalog) (data : Bytes)
    (h : data.take 4 ≠ [0xAC, 0xED, 0x00, 0x05]) :
    get_reposync_details cat data = .ok initDetails := by
  rw [get_reposync_details_eq_catch]
  unfold decodeBody javaobj_loads
  rw [if_neg (by simpa [streamMagic] using h)]
  rfl

/-- C3 witness: a ZIP-like header is not this format. -/
theorem spec_C3_witness :
    ([0x50, 0x4B, 0x03, 0x04, 0x99] : Bytes).take 4 ≠ [0xAC, 0xED, 0x00, 0x05]
    ∧ get_reposync_details [] [0x50, 0x4B, 0x03, 0x04, 0x99] = .ok initDetails :=
  ⟨by decide, spec_C3 [] [0x50, 0x4B, 0x03, 0x04, 0x99] (by decide)⟩

/-- C4: in a graph-format buffer, each of the four flag keys maps to
true exactly when its text value lowercases to `"true"`, and to false
otherwise (keys absent from the buffer keep their false default); in
particular the buffer with entries `"latest" -> "true"`,
`"fail" -> "false"` decodes to `latest = true` and the other three
flags false. -/
theorem spec_C4 :
    (∀ (cat : Catalog) (k v : String), k ∈ flagKeys → strOk v = true →
      get_reposync_details cat (mkGraphBuffer [.es k, .es v]) =
        .ok (dictSet initDetails k (.flag (pyLower v == "true"))))
    ∧ (∀ cat : Catalog,
      get_reposync_details cat
          (mkGraphBuffer [.es "latest", .es "true", .es "fail", .es "false"]) =
        .ok (dictSet initDetails "latest" (.flag true))) := by
  constructor
  · intro cat k v hk hv
    have hkok : strOk k = true := by
      have hk2 := hk
      simp only [flagKeys, List.mem_cons, List.mem_singleton, List.not_mem_nil,
        or_false] at hk2
      rcases hk2 with rfl | rfl | rfl | rfl <;> decide
    exact reposync_flag_eval cat k v hk hkok hv
  · intro cat
    rfl

/-- C4 witness: the case-insensitive match at the key `"latest"` with
value `"TRUE"`. -/
theorem spec_C4_witness :
    get_reposync_details [] (mkGraphBuffer [.es "latest", .es "TRUE"]) =
      .ok (dictSet initDetails "latest" (.flag (pyLower "TRUE" == "true"))) :=
  spec_C4.1 [] "latest" "TRUE" (by decide) (by decide)

/-- C5: a graph-format buffer whose `"channel_ids"` key carries a nested
container of n integer-valued strings decodes to exactly n channel
entries appended in the container's encounter order, each resolved by
an independent single-id call to the channel resolver. -/
theorem spec_C5 (cat : Catalog) (pairs : List (String × Int))
    (hp : ∀ p ∈ pairs, strOk p.1 = true ∧ pyInt p.1 = some p.2) :
    get_reposync_details cat
        (mkGraphBuffer [.es "channel_ids", .elist (pairs.map Prod.fst)]) =
      .ok (setChans initDetails (pairs.map (fun p => lookupChannel cat p.2))) :=
  reposync_channel_ids_eval cat pairs hp

/-- C5 witness: `["101", "102", "103"]` yields the three entries in that
exact order. -/
theorem spec_C5_witness :
    get_reposync_details
        [⟨101, "a", "A"⟩, ⟨102, "b", "B"⟩, ⟨103, "c", "C"⟩]
        (mkGraphBuffer [.es "channel_ids", .elist ["101", "102", "103"]]) =
      .ok (setChans initDetails
        [some ⟨101, "a", "A"⟩, some ⟨102, "b", "B"⟩, some ⟨103, "c", "C"⟩]) := by
  have := spec_C5 [⟨101, "a", "A"⟩, ⟨102, "b", "B"⟩, ⟨103, "c", "C"⟩]
    [("101", 101), ("102", 102), ("103", 103)] (by decide)
  exact this

/-- C6 counterexample: the claim says a structural violation (here, a
truncated annotation block) aborts only the current entry and preserves
every entry extracted before it. On the code the whole wire parse is
all-or-nothing: the full buffer decodes with `fail = true` and
`latest = true`, yet the same buffer truncated 2 bytes before its end —
after the complete `"fail" -> "true"` entry — decodes to the empty
record: nothing is preserved. -/
theorem spec_C6_counterexample :
    get_reposync_details []
        (mkGraphBuffer [.es "fail", .es "true", .es "latest", .es "true"]) =
      .ok (mkDetails false true false true [])
    ∧ get_reposync_details []
        ((mkGraphBuffer [.es "fail", .es "true", .es "latest", .es "true"]).take
          ((mkGraphBuffer [.es "fail", .es "true", .es "latest", .es "true"]).length
            - 2)) =
      .ok initDetails :=
  ⟨rfl, rfl⟩

/-- C6 (amended): a wire-level structural violation (e.g. a truncated
annotation block) aborts the entire parse and yields the empty record —
no entries are preserved; an extraction-level failure (e.g. a
non-numeric channel id value) aborts the current entry and all
subsequent ones, while entries extracted before it are preserved in the
returned record. -/
theorem spec_C6_amended :
    (∀ (cat : Catalog) (rest : List String),
      (∀ s ∈ rest, strOk s = true) →
      get_reposync_details cat
          (mkGraphBuffer ([.es "fail", .es "true", .es "channel_id", .es "abc"]
            ++ rest.map GEntry.es)) =
        .ok (dictSet initDetails "fail" (.flag true)))
    ∧ (∀ cat : Catalog,
      get_reposync_details cat
          ((mkGraphBuffer [.es "fail", .es "true", .es "latest", .es "true"]).take
            ((mkGraphBuffer [.es "fail", .es "true", .es "latest",
              .es "true"]).length - 2)) =
        .ok initDetails) := by
  constructor
  · exact reposync_abort_eval
  · intro cat
    rfl

/-- C6 witness: entries after the failing `"channel_id" -> "abc"` pair
are discarded while the earlier `"fail" -> "true"` entry is kept. -/
theorem spec_C6_witness :
    get_reposync_details []
        (mkGraphBuffer ([.es "fail", .es "true", .es "channel_id", .es "abc"]
          ++ (["latest", "true"].map GEntry.es))) =
      .ok (dictSet initDetails "fail" (.flag true)) :=
  spec_C6_amended.1 [] ["latest", "true"] (by decide)

/-- C7: a well-formed single-channel buffer — the field name
`"channel_id"` followed by tag byte `0x74`, a 2-byte big-endian length
and that many bytes of decimal text for N — decodes to exactly one
channel entry, resolved through the channel resolver at id N (so any
resolved row carries `channel_id = N`), with all four flags false. -/
theorem spec_C7 :
    (∀ (cat : Catalog) (s : String) (N : Int),
      strOk s = true → pyInt s = some N →
      get_reposync_details cat (mkGraphBuffer [.es "channel_id", .es s]) =
        .ok (setChans initDetails [lookupChannel cat N]))
    ∧ (∀ (cat : Catalog) (N : Int) (ch : Channel),
      lookupChannel cat N = some ch → ch.id = N) := by
  constructor
  · exact reposync_channel_id_eval
  · intro cat N ch h
    unfold lookupChannel at h
    have hmem : ch ∈ cat.filter (fun c => c.id == N) :=
      List.mem_of_mem_head? (Option.mem_def.mpr h)
    have := (List.mem_filter.mp hmem).2
    simpa using this

/-- C7 witness: the end-to-end example with decimal text `"123"`. -/
theorem spec_C7_witness :
    get_reposync_details [⟨123, "lbl", "nm"⟩]
        (mkGraphBuffer [.es "channel_id", .es "123"]) =
      .ok (setChans initDetails [some ⟨123, "lbl", "nm"⟩]) := by
  have := spec_C7.1 [⟨123, "lbl", "nm"⟩] "123" 123 (by decide) (by decide)
  exact this

/-- C8: whenever channel resolution raises the not-found condition for a
list query, the exception carries exactly the identifiers with no match
in the catalog — every unmatched id (in encounter order) followed by
every unmatched label — not just the first missing one. -/
theorem spec_C8 (cat : Catalog) (xs : List Ident) (ig : Bool) (m : List Ident)
    (h : get_channel_details cat (.list xs) ig = .error (.channelNotFound m)) :
    m = missingOf cat xs :=
  get_channel_details_missing cat xs ig m h

/-- C8 witness: querying `[1, 2, "b"]` against a catalog holding only
channel 1 raises with both missing identifiers, id 2 and label `"b"`. -/
theorem spec_C8_witness :
    get_channel_details [⟨1, "a", "A"⟩] (.list [.int 1, .int 2, .str "b"]) false =
      .error (.channelNotFound [.int 2, .str "b"])
    ∧ ([Ident.int 2, Ident.str "b"] : List Ident) =
        missingOf [⟨1, "a", "A"⟩] [.int 1, .int 2, .str "b"] :=
  ⟨rfl, spec_C8 [⟨1, "a", "A"⟩] [.int 1, .int 2, .str "b"] false _ rfl⟩

/-- C9: for every input, `get_reposync_details` returns a non-null
record whose keys are exactly `no-errata`, `latest`, `sync-kickstart`,
`fail` and `channels`, in that order; in particular a completely
unparseable payload returns the same record as a valid graph buffer
with no entries — indistinguishable by nullness. -/
theorem spec_C9 :
    (∀ (cat : Catalog) (data : Bytes),
      ∃ d, get_reposync_details cat data = .ok d ∧
        d.map Prod.fst =
          ["no-errata", "latest", "sync-kickstart", "fail", "channels"])
    ∧ (∀ cat : Catalog,
      get_reposync_details cat [0x00, 0x01] = .ok initDetails
      ∧ get_reposync_details cat (mkGraphBuffer []) = .ok initDetails) := by
  constructor
  · intro cat data
    refine ⟨catchD (decodeBody cat data), get_reposync_details_eq_catch cat data, ?_⟩
    obtain ⟨f1, f2, f3, f4, cs, heq⟩ := shape_reposync cat data
    rw [heq]
    rfl
  · intro cat
    exact ⟨rfl, rfl⟩

/-- C10 counterexample: the claim says the exception path is reachable
only when at least one identifier is missing. Querying the list
`[5, "foo"]` against a catalog whose one channel has id 5 AND label
`"foo"` raises `channelNotFound []` — the single returned row satisfies
both identifiers, so none is missing, yet the row count (1) is below
the identifier count (2) and the exception fires. -/
theorem spec_C10_counterexample :
    get_channel_details [⟨5, "foo", "Foo"⟩] (.list [.int 5, .str "foo"]) false =
      .error (.channelNotFound [])
    ∧ ∀ x ∈ [Ident.int 5, Ident.str "foo"],
        ∃ ch ∈ ([⟨5, "foo", "Foo"⟩] : Catalog), identMatches x ch = true := by
  exact ⟨rfl, by decide⟩

/-- C10 (amended): a single-identifier query that matches no channel
returns `None` instead of raising, regardless of `ignore_missing`; the
not-found exception is reachable only for list queries with
`ignore_missing` false where at least one row is returned and the row
count is below the identifier count — which can happen even when every
identifier is matched (one row matching both an id and a label, or
duplicate identifiers). -/
theorem spec_C10_amended :
    (∀ (cat : Catalog) (x : Ident) (ig : Bool),
      (∀ ch ∈ cat, identMatches x ch = false) →
      get_channel_details cat (.single x) ig = .ok .nothing)
    ∧ (∀ (cat : Catalog) (q : IdentArg) (ig : Bool) (m : List Ident),
      get_channel_details cat q ig = .error (.channelNotFound m) →
      ∃ xs, q = .list xs ∧ ig = false ∧
        cat.filter (matchesQuery (identInts xs) (identStrs xs)) ≠ [] ∧
        (cat.filter (matchesQuery (identInts xs) (identStrs xs))).length <
          (identInts xs).length + (identStrs xs).length) :=
  ⟨get_channel_details_single_miss, get_channel_details_error_shape⟩

/-- C10 witness: a missing single id returns `None` even with
`ignore_missing = true`. -/
theorem spec_C10_witness :
    get_channel_details [⟨1, "a", "A"⟩] (.single (.int 2)) true = .ok .nothing :=
  spec_C10_amended.1 [⟨1, "a", "A"⟩] (.int 2) true (by decide)


end LSTasko

